import Mathlib

/-!
Verification development for the FoxNest client storage engine
(fox_client.py).  The Python source is shallowly embedded: bytes are
modelled as lists of naturals, the on-disk layout of the hidden
repository directory is an explicit state record, and each command is a
pure function on that state.  External primitives (zlib, sha256, base64,
JSON serialisation) are modelled as concrete injective codings with the
round-trip properties the program relies on; all repository logic
(lookup order, fallbacks, thresholds, truthiness tests, dictionary
keying) is translated directly from the source.
-/

namespace FoxNest

/-- Association-list lookup with string keys, first match wins
(models Python dictionary lookup on a fixed iteration order). -/
def lookupS {α : Type} (m : List (String × α)) (k : String) : Option α :=
  match m with
  | [] => none
  | (k', v) :: rest => if k' = k then some v else lookupS rest k

/-- Insert or overwrite a key, keeping the original position of an
existing key (models Python dictionary assignment and overwriting an
existing file). -/
def insertReplace {α : Type} (k : String) (v : α) : List (String × α) → List (String × α)
  | [] => [(k, v)]
  | (k', v') :: rest =>
      if k' = k then (k, v) :: rest else (k', v') :: insertReplace k v rest

/-- Remove a key from an association list. -/
def removeKey {α : Type} (k : String) : List (String × α) → List (String × α)
  | [] => []
  | (k', v') :: rest =>
      if k' = k then rest else (k', v') :: removeKey k rest

/-- Models zlib.compress at a fixed level: an injective coding with an
explicit header byte, so that compressed bytes are distinguishable from
the raw ones. -/
def compress_data (data : List Nat) : List Nat :=
  data.length :: data

/-- Models zlib.decompress, the left inverse of compress_data. -/
def decompress_data (c : List Nat) : List Nat :=
  c.drop 1

/-- Models base64.b64encode on bytes: an injective executable coding of
byte lists into strings. -/
def b64encode (bs : List Nat) : String :=
  bs.foldr (fun n s => toString n ++ "." ++ s) ""

/-- Models hashlib.sha256(content).hexdigest()[:16] from get_file_hash:
a deterministic content digest.  The model digest is injective, matching
the working assumption of the store that equal digests mean equal
content; it always has length at least two, so the two-character shard
split is well defined. -/
def get_file_hash (content : List Nat) : String :=
  "hh" ++ b64encode content

/-- Models hashing an arbitrary string (commit and pack identifiers are
sha256 digests of strings in the source). -/
def get_str_hash (s : String) : String :=
  "hs" ++ s

/-- A pack manifest, the plaintext .idx file written by pack_objects. -/
structure Manifest where
  pack_file : String
  object_count : Nat
  objects : List String
  deriving Repr, DecidableEq

/-- The object-store slice of the hidden repository directory.
sharded holds the two-level shard tier (full hash to on-disk compressed
bytes), flat the legacy flat tier (full hash to on-disk bytes), and
packFiles / idxFiles the pack payloads and manifests under packs. -/
structure Store where
  sharded : List (String × List Nat)
  flat : List (String × List Nat)
  packFiles : List (String × List Nat)
  idxFiles : List (String × Manifest)
  deriving Repr, DecidableEq

def Store.empty : Store := ⟨[], [], [], []⟩

/-- store_object_compressed: compress the content and write it to the
shard path keyed by the hash (overwriting any previous file). -/
def store_object_compressed (content : List Nat) (file_hash : String) (st : Store) : Store :=
  { st with sharded := insertReplace file_hash (compress_data content) st.sharded }

/-- load_object_compressed: try the shard path and decompress; on a miss
fall back to the legacy flat path and return its bytes without
decompression; return none when both are absent.  Pack files are never
consulted, exactly as in the source. -/
def load_object_compressed (file_hash : String) (st : Store) : Option (List Nat) :=
  match lookupS st.sharded file_hash with
  | some compressed => some (decompress_data compressed)
  | none =>
      match lookupS st.flat file_hash with
      | some raw => some raw
      | none => none

/-- put as used by add: hash the content and store it compressed. -/
def putContent (st : Store) (content : List Nat) : Store :=
  store_object_compressed content (get_file_hash content) st

/-- The pack threshold from the constructor (self.pack_threshold = 20). -/
def pack_threshold : Nat := 20

/-- The loose objects enumerated by os.walk over the objects directory:
the flat files directly under it come first, then the shard
subdirectories; each hash is reconstructed from directory plus file
name. -/
def loose_list (st : Store) : List (String × List Nat) :=
  st.flat ++ st.sharded

/-- Serialisation of the pack map, modelling json.dumps of the
hash-to-base64 dictionary as an injective byte coding. -/
def encodeStr (s : String) : List Nat :=
  s.length :: s.toList.map Char.toNat

def encodePairs (ps : List (String × String)) : List Nat :=
  ps.foldr (fun p acc => encodeStr p.1 ++ encodeStr p.2 ++ acc) []

/-- The pack map built by the packing loop: every loose object read and
base64 encoded into one dictionary keyed by hash. -/
def pack_data_of (st : Store) : List (String × String) :=
  (loose_list st).foldl (fun acc hb => insertReplace hb.1 (b64encode hb.2) acc) []

/-- pack_objects: if fewer than pack_threshold loose objects exist,
return unchanged; otherwise base64 encode every loose object into one
map (unlinking each loose file as it is read), compress the map as the
pack payload, write the payload file and then the plaintext manifest. -/
def pack_objects (now : String) (st : Store) : Store :=
  if (loose_list st).length < pack_threshold then st
  else
    let pack_id := get_str_hash now
    let pd := pack_data_of st
    let payload := compress_data (encodePairs pd)
    let manifest : Manifest :=
      { pack_file := "pack-" ++ pack_id ++ ".pack"
        object_count := pd.length
        objects := pd.map Prod.fst }
    { sharded := []
      flat := []
      packFiles := st.packFiles ++ [("pack-" ++ pack_id ++ ".pack", payload)]
      idxFiles := st.idxFiles ++ [("pack-" ++ pack_id ++ ".idx", manifest)] }

/-- The store state after the packing loop has unlinked the first k
walked loose objects; no pack payload or manifest exists yet. -/
def packMidState (st : Store) (k : Nat) : Store :=
  { st with
    flat := st.flat.drop k
    sharded := st.sharded.drop (k - st.flat.length) }

/-- The store state after the pack payload file has been written but
before the manifest write. -/
def packPayloadOnly (now : String) (st : Store) : Store :=
  { packMidState st (loose_list st).length with
    packFiles := st.packFiles ++
      [("pack-" ++ get_str_hash now ++ ".pack",
        compress_data (encodePairs (pack_data_of st)))] }

/-- The sequence of on-disk states traversed by one pack_objects call:
the initial state, the state after each unlink in the packing loop, the
state after the payload write, and the final state after the manifest
write.  Below the threshold the call performs no filesystem effect. -/
def pack_trace (now : String) (st : Store) : List Store :=
  if (loose_list st).length < pack_threshold then [st]
  else
    ((List.range ((loose_list st).length + 1)).map (packMidState st))
      ++ [packPayloadOnly now st, pack_objects now st]

/-- The loose-object count computed before automatic packing and by gc
(a recursive glob counting files under the objects directory). -/
def loose_count (st : Store) : Nat :=
  (loose_list st).length

/-- gc, restricted to its object-store effect: report and return when no
loose object exists, otherwise call pack_objects (which itself still
enforces the threshold). -/
def gcStore (now : String) (st : Store) : Store :=
  if loose_count st = 0 then st else pack_objects now st

/-- The parse status of a JSON state file: missing from disk, present
but unparseable, or parsed content. -/
inductive FileData (α : Type) where
  | absent : FileData α
  | corrupt : FileData α
  | good : α → FileData α
  deriving Repr, DecidableEq

/-- A working-tree file: its raw bytes and its modification time.  The
stat size of a file is the length of its content. -/
structure WorkFile where
  content : List Nat
  mtime : Int
  deriving Repr, DecidableEq

/-- An index entry: the blob hash, modification time and size recorded
for a tracked path at the last commit. -/
structure IndexEntry where
  hash : String
  mtime : Int
  size : Nat
  deriving Repr, DecidableEq

/-- A staging record as written by add: the full working path and the
blob hash (the timestamp field plays no role in any behaviour). -/
structure StagedInfo where
  path : String
  hash : String
  deriving Repr, DecidableEq

/-- A file entry of a commit: the working path and the base64-encoded
content stored inline. -/
structure FileEntry where
  path : String
  content : String
  deriving Repr, DecidableEq

/-- A commit object as stored in the commits file. -/
structure CommitObj where
  id : String
  message : String
  author : String
  timestamp : String
  parent : Option String
  files : List (String × FileEntry)
  deriving Repr, DecidableEq

/-- A delta-cache record: the current hash of a path and the previous
one as delta base. -/
structure DeltaEntry where
  current_hash : String
  base_hash : Option String
  deriving Repr, DecidableEq

/-- The full local repository state relevant to the embedded commands:
the object store, the staging directory (keyed by the name under which
the staging file was written), the commits file, HEAD, the index file,
the delta-cache file, the working tree and the configured username. -/
structure Repo where
  store : Store
  staging : List (String × StagedInfo)
  commitsFile : FileData (List CommitObj)
  head : Option String
  indexFile : FileData (List (String × IndexEntry))
  deltaCacheFile : FileData (List (String × DeltaEntry))
  work : List (String × WorkFile)
  username : String
  deriving Repr, DecidableEq

/-- load_index: a missing index file gives an empty index, and a parse
error is caught and also gives an empty index. -/
def load_index (f : FileData (List (String × IndexEntry))) : List (String × IndexEntry) :=
  match f with
  | .absent => []
  | .corrupt => []
  | .good i => i

/-- load_delta_cache: missing or unparseable gives an empty cache. -/
def load_delta_cache (f : FileData (List (String × DeltaEntry))) : List (String × DeltaEntry) :=
  match f with
  | .absent => []
  | .corrupt => []
  | .good c => c

/-- update_delta_cache: the previous current hash of the path becomes
the delta base of the new record. -/
def update_delta_cache (file_path file_hash : String)
    (cache : List (String × DeltaEntry)) : List (String × DeltaEntry) :=
  let old_hash := (lookupS cache file_path).map (fun e => e.current_hash)
  insertReplace file_path { current_hash := file_hash, base_hash := old_hash } cache

/-- The reads of the commits file that are NOT wrapped in exception
handling (commit, log, push, pull): a missing file reads as the empty
list, an unparseable file raises. -/
def readCommits (f : FileData (List CommitObj)) : Option (List CommitObj) :=
  match f with
  | .absent => some []
  | .corrupt => none
  | .good cs => some cs

/-- update_index_from_commit: rebuild the index from the files map of a
commit, keeping only paths that currently exist in the working tree and
recording their present stat data. -/
def update_index_from_commit (work : List (String × WorkFile))
    (files : List (String × FileEntry)) : List (String × IndexEntry) :=
  files.foldl
    (fun acc hf =>
      match lookupS work hf.2.path with
      | some wf =>
          insertReplace hf.2.path
            { hash := hf.1, mtime := wf.mtime, size := wf.content.length } acc
      | none => acc)
    []

/-- init_index_from_last_commit: rebuild the index from the files map of
the last commit; a missing, unparseable or empty commits file leaves the
index untouched (the exception is swallowed). -/
def init_index_from_last_commit (cf : FileData (List CommitObj))
    (work : List (String × WorkFile))
    (idx : List (String × IndexEntry)) : List (String × IndexEntry) :=
  match cf with
  | .absent => idx
  | .corrupt => idx
  | .good [] => idx
  | .good (c :: cs) => update_index_from_commit work ((c :: cs).getLast (by simp)).files

/-- Split a character list on a separator character (the path and
pattern splitting used below, written as structural recursion so that
concrete instances evaluate). -/
def splitOnChar (c : Char) : List Char → List (List Char)
  | [] => [[]]
  | x :: xs =>
      if x = c then [] :: splitOnChar c xs
      else
        match splitOnChar c xs with
        | [] => [[x]]
        | y :: ys => (x :: y) :: ys

/-- The components of a slash-separated path. -/
def pathParts (p : String) : List String :=
  (splitOnChar '/' p.toList).map (fun cs => ⟨cs⟩)

/-- True when a string starts with a dot character. -/
def startsWithDot (s : String) : Bool :=
  match s.toList with
  | '.' :: _ => true
  | _ => false

/-- The ignore set of get_all_files. -/
def ignore_patterns : List String :=
  [".fox", ".git", ".svn", ".hg", "venv", "env", ".venv", ".env",
   "node_modules", "__pycache__", ".pytest_cache", ".tox", ".coverage",
   "dist", "build", ".DS_Store", "Thumbs.db"]

/-- A path component is skipped when it is in the ignore set or begins
with a dot. -/
def ignoreP (part : String) : Bool :=
  ignore_patterns.any (fun q => q = part) || startsWithDot part

/-- A path is excluded from the working-tree scan when any of its
components is skipped. -/
def ignoredPath (p : String) : Bool :=
  (pathParts p).any ignoreP

/-- get_all_files: every file of the working tree whose path survives
the ignore filter, in tree order. -/
def get_all_files (work : List (String × WorkFile)) : List String :=
  (work.map Prod.fst).filter (fun p => !ignoredPath p)

/-- The per-entry verdict of the fast detector: a missing tracked file
is modified; otherwise the stored size and mtime are compared and only
on a mismatch is the file rehashed and its digest compared. -/
def fastCond (work : List (String × WorkFile)) (p : String) (info : IndexEntry) : Bool :=
  match lookupS work p with
  | none => true
  | some wf =>
      if wf.content.length ≠ info.size ∨ wf.mtime ≠ info.mtime then
        get_file_hash wf.content ≠ info.hash
      else false

/-- get_modified_files_fast: with an empty index (after the shared
bootstrap from the last commit) nothing is reported; otherwise every
tracked path satisfying the fast verdict, in index order. -/
def get_modified_files_fast (idx : List (String × IndexEntry))
    (work : List (String × WorkFile)) : List String :=
  if idx = [] then []
  else idx.filterMap (fun pe => if fastCond work pe.1 pe.2 then some pe.1 else none)

/-- get_modified_files_comprehensive: with an empty index nothing is
reported; otherwise every scanned file that is tracked and whose fresh
digest differs from the stored one, followed by every tracked path
missing from disk. -/
def get_modified_files_comprehensive (idx : List (String × IndexEntry))
    (work : List (String × WorkFile)) : List String :=
  if idx = [] then []
  else
    (work.filter (fun pw => !ignoredPath pw.1)).filterMap
      (fun pw =>
        match lookupS idx pw.1 with
        | some info =>
            if get_file_hash pw.2.content ≠ info.hash then some pw.1 else none
        | none => none)
    ++ idx.filterMap
      (fun pe => if (lookupS work pe.1).isNone then some pe.1 else none)

/-- The substring test used by add to skip repository metadata: true
when the needle occurs anywhere in the haystack. -/
def hasSubList (needle : List Char) : List Char → Bool
  | [] => needle.isPrefixOf []
  | c :: rest => needle.isPrefixOf (c :: rest) || hasSubList needle rest

/-- The skip condition of add on a candidate path. -/
def containsDotFox (p : String) : Bool :=
  hasSubList ".fox".toList p.toList

/-- The name of a path: its last component. -/
def baseName (p : String) : String :=
  ((pathParts p).getLast?).getD p

/-- add for one explicitly named file: a missing path is reported and
nothing changes; a path containing the metadata substring is silently
skipped; otherwise the content is hashed, stored compressed, the delta
cache is updated, and a staging record is written to a file named after
the BASENAME of the path (overwriting any record of the same name). -/
def addFile (r : Repo) (fp : String) : Repo :=
  match lookupS r.work fp with
  | none => r
  | some wf =>
      if containsDotFox fp then r
      else
        let h := get_file_hash wf.content
        { r with
          store := store_object_compressed wf.content h r.store
          deltaCacheFile :=
            .good (update_delta_cache fp h (load_delta_cache r.deltaCacheFile))
          staging := insertReplace (baseName fp) { path := fp, hash := h } r.staging }

/-- One iteration of the staged-file loop of commit: load the blob by
its hash; when the loaded content is truthy (present AND non-empty) it
is base64 encoded into the files map keyed by the HASH; otherwise the
legacy flat path is consulted once more and its raw bytes encoded; when
both fail a warning is printed and the entry is skipped. -/
def buildStep (st : Store) (acc : List (String × FileEntry))
    (e : String × StagedInfo) : List (String × FileEntry) :=
  match load_object_compressed e.2.hash st with
  | some content =>
      if content ≠ [] then
        insertReplace e.2.hash
          { path := e.2.path, content := b64encode content } acc
      else
        match lookupS st.flat e.2.hash with
        | some raw =>
            insertReplace e.2.hash
              { path := e.2.path, content := b64encode raw } acc
        | none => acc
  | none =>
      match lookupS st.flat e.2.hash with
      | some raw =>
          insertReplace e.2.hash
            { path := e.2.path, content := b64encode raw } acc
      | none => acc

/-- The files map of a commit, folded over the staged records. -/
def buildFiles (st : Store) (staged : List (String × StagedInfo)) : List (String × FileEntry) :=
  staged.foldl (buildStep st) []

/-- The observable outcome of commit: an early return on empty staging,
an uncaught JSON parse exception, or success with the new state and the
appended commit object. -/
inductive CommitOutcome where
  | notStaged : CommitOutcome
  | raised : CommitOutcome
  | done : Repo → CommitObj → CommitOutcome
  deriving Repr, DecidableEq

/-- commit: return early when nothing is staged; build the commit id
from message and timestamp, take the parent from HEAD, build the files
map, read the commits file WITHOUT exception handling (an unparseable
file raises), append the commit, update HEAD, rebuild the index from
the committed files, clear staging, and pack loose objects when their
count reaches the threshold. -/
def commit (r : Repo) (message now : String) : CommitOutcome :=
  if r.staging = [] then .notStaged
  else
    let commit_id := get_str_hash (message ++ now)
    let files := buildFiles r.store r.staging
    match readCommits r.commitsFile with
    | none => .raised
    | some commits =>
        let c : CommitObj :=
          { id := commit_id, message := message, author := r.username
            timestamp := now, parent := r.head, files := files }
        let st2 :=
          if pack_threshold ≤ loose_count r.store then pack_objects now r.store
          else r.store
        .done
          { r with
            commitsFile := .good (commits ++ [c])
            head := some commit_id
            indexFile := .good (update_index_from_commit r.work files)
            staging := []
            store := st2 } c

/-- The observable outcome of push against a reachable remote: an
uncaught parse exception, the up-to-date report with zero write
requests, or the ordered sequence of write requests made together with
whether the loop ran to completion. -/
inductive PushOutcome where
  | raised : PushOutcome
  | upToDate : PushOutcome
  | sent : List String → Bool → PushOutcome
  deriving Repr, DecidableEq

/-- The push loop over ALL local commits, oldest first: each iteration
issues one write request; the server (create_commit) rejects a commit id
it already holds, since the id is the primary key, and the client then
aborts, so the loop stops at the first commit already present remotely,
having issued that failing request. -/
def sendLoop : List CommitObj → List String → List String × Bool
  | [], _ => ([], true)
  | c :: rest, remote =>
      if remote.contains c.id then ([c.id], false)
      else
        let r := sendLoop rest (c.id :: remote)
        (c.id :: r.1, r.2)

/-- push against a remote already holding the given commit ids: a
missing commits file or no local commits reports up to date; then the
remote commit-id set is fetched, and only when EVERY local commit id is
already remote does push report up to date without any write; otherwise
the loop sends every local commit in order via sendLoop. -/
def push (r : Repo) (remote : List String) : PushOutcome :=
  match readCommits r.commitsFile with
  | none => .raised
  | some cs =>
      if cs = [] then .upToDate
      else
        let newCommits := cs.filter (fun c => !(remote.contains c.id))
        if newCommits = [] then .upToDate
        else
          let s := sendLoop cs remote
          .sent s.1 s.2

/-- log: a missing commits file reports no commits; an unparseable one
raises (no exception handling); otherwise the commits are listed most
recent first. -/
def logCmd (r : Repo) : Option (List CommitObj) :=
  match r.commitsFile with
  | .absent => some []
  | .corrupt => none
  | .good cs => some cs.reverse

/-- Observer returning the size of the files map of a successful commit. -/
def commitFilesCount (o : CommitOutcome) : Option Nat :=
  match o with
  | .done _ c => some c.files.length
  | _ => none

/-- The commit object produced by a successful commit call. -/
def commitResult (r : Repo) (message now : String) : CommitObj :=
  { id := get_str_hash (message ++ now)
    message := message
    author := r.username
    timestamp := now
    parent := r.head
    files := buildFiles r.store r.staging }

/-- The repository state after a successful commit call that read the
commit list old from the commits file. -/
def commitRepoAfter (r : Repo) (message now : String) (old : List CommitObj) : Repo :=
  { r with
    commitsFile := .good (old ++ [commitResult r message now])
    head := some (get_str_hash (message ++ now))
    indexFile := .good (update_index_from_commit r.work (buildFiles r.store r.staging))
    staging := []
    store :=
      if pack_threshold ≤ loose_count r.store then pack_objects now r.store
      else r.store }

/-- A store holding exactly twenty freshly added loose objects, the
automatic pack threshold. -/
def stTwenty : Store :=
  (List.range 20).foldl (fun s i => putContent s [i]) Store.empty

/-- A store holding a single loose object. -/
def stOne : Store :=
  putContent Store.empty [5]

/-- A freshly initialised repository with an empty object store. -/
def repoBase : Repo :=
  { store := Store.empty
    staging := []
    commitsFile := .good []
    head := none
    indexFile := .absent
    deltaCacheFile := .absent
    work := []
    username := "u" }

/-- A working tree holding two same-named files in different
directories, with different content. -/
def repoTwoDirs : Repo :=
  { repoBase with work := [("d1/a.txt", ⟨[1], 0⟩), ("d2/a.txt", ⟨[2], 0⟩)] }

/-- A working tree holding a regular file whose name contains the
metadata substring. -/
def repoFox : Repo :=
  { repoBase with work := [("notes.fox.txt", ⟨[1], 0⟩)] }

/-- Two distinct working files with IDENTICAL content, both staged. -/
def repoDup : Repo :=
  addFile
    (addFile { repoBase with work := [("a.txt", ⟨[9], 0⟩), ("b.txt", ⟨[9], 0⟩)] }
      "a.txt")
    "b.txt"

/-- Two distinct working files with distinct content, both staged. -/
def repoDistinct : Repo :=
  addFile
    (addFile { repoBase with work := [("a.txt", ⟨[3], 0⟩), ("b.txt", ⟨[4], 0⟩)] }
      "a.txt")
    "b.txt"

/-- A repository with one staged record whose blob is absent from every
tier of the object store. -/
def repoMiss : Repo :=
  { repoBase with staging := [("a.txt", ⟨"a.txt", "hh9."⟩)] }

/-- A repository with a staged record and an unparseable commits file. -/
def repoCorrupt : Repo :=
  { repoBase with
    staging := [("a.txt", ⟨"a.txt", "hhx"⟩)]
    commitsFile := .corrupt }

/-- Two local commits, the oldest first. -/
def commitOne : CommitObj :=
  { id := "c1", message := "one", author := "u", timestamp := "t1"
    parent := none, files := [] }

def commitTwo : CommitObj :=
  { id := "c2", message := "two", author := "u", timestamp := "t2"
    parent := some "c1", files := [] }

/-- A repository whose local log holds the two commits above. -/
def repoPush : Repo :=
  { repoBase with commitsFile := .good [commitOne, commitTwo] }

/-- An index tracking one path that is absent from the working tree. -/
def idxDeleted : List (String × IndexEntry) :=
  [("a", ⟨"h", 0, 1⟩)]

/-- An index entry whose stored size and mtime match the file on disk
while the stored hash does not: a content change that preserves both
stat fields. -/
def idxMismatch : List (String × IndexEntry) :=
  [("a", ⟨"X", 0, 1⟩)]

def workMismatch : List (String × WorkFile) :=
  [("a", ⟨[1], 0⟩)]

theorem lookupS_mem {α : Type} {k : String} {v : α} :
    ∀ {m : List (String × α)}, lookupS m k = some v → (k, v) ∈ m
  | [], h => by simp [lookupS] at h
  | (k', v') :: rest, h => by
      rw [lookupS] at h
      by_cases hk : k' = k
      · rw [if_pos hk] at h
        subst hk
        cases h
        exact List.mem_cons_self _ _
      · rw [if_neg hk] at h
        exact List.mem_cons_of_mem _ (lookupS_mem h)

theorem mem_lookupS {α : Type} {k : String} {v : α} :
    ∀ {m : List (String × α)}, (m.map Prod.fst).Nodup → (k, v) ∈ m →
      lookupS m k = some v
  | [], _, h => by simp at h
  | (k', v') :: rest, hnd, h => by
      rw [List.map_cons, List.nodup_cons] at hnd
      rw [lookupS]
      rcases List.mem_cons.mp h with heq | hmem
      · cases heq
        rw [if_pos rfl]
      · by_cases hk : k' = k
        · subst hk
          exact absurd (List.mem_map_of_mem Prod.fst hmem) hnd.1
        · rw [if_neg hk]
          exact mem_lookupS hnd.2 hmem

theorem lookupS_insertReplace_ne {α : Type} {k k' : String} (v : α)
    (hne : k' ≠ k) :
    ∀ (m : List (String × α)), lookupS (insertReplace k' v m) k = lookupS m k
  | [] => by simp [insertReplace, lookupS, hne]
  | (a, b) :: rest => by
      rw [insertReplace]
      by_cases ha : a = k'
      · rw [if_pos ha, lookupS, lookupS, if_neg hne, if_neg (ha ▸ hne)]
      · rw [if_neg ha, lookupS, lookupS]
        by_cases hak : a = k
        · rw [if_pos hak, if_pos hak]
        · rw [if_neg hak, if_neg hak]
          exact lookupS_insertReplace_ne v hne rest

theorem insertReplace_length_le {α : Type} (k : String) (v : α) :
    ∀ (m : List (String × α)), (insertReplace k v m).length ≤ m.length + 1
  | [] => by simp [insertReplace]
  | (a, b) :: rest => by
      rw [insertReplace]
      by_cases ha : a = k
      · rw [if_pos ha]
        simp
      · rw [if_neg ha]
        simpa using insertReplace_length_le k v rest

theorem insertReplace_length_of_none {α : Type} {k : String} (v : α) :
    ∀ {m : List (String × α)}, lookupS m k = none →
      (insertReplace k v m).length = m.length + 1
  | [], _ => by simp [insertReplace]
  | (a, b) :: rest, h => by
      rw [lookupS] at h
      by_cases ha : a = k
      · rw [if_pos ha] at h
        cases h
      · rw [if_neg ha] at h
        rw [insertReplace, if_neg ha]
        simpa using insertReplace_length_of_none v h

/-- A hash absent from the shard tier and from the legacy flat tier is
exactly a hash on which load_object_compressed fails. -/
theorem load_none_split {h : String} {st : Store}
    (hm : load_object_compressed h st = none) :
    lookupS st.sharded h = none ∧ lookupS st.flat h = none := by
  unfold load_object_compressed at hm
  cases hs : lookupS st.sharded h with
  | some c => rw [hs] at hm; cases hm
  | none =>
      rw [hs] at hm
      cases hf : lookupS st.flat h with
      | some c => rw [hf] at hm; cases hm
      | none => exact ⟨rfl, rfl⟩

/-- A staged entry whose blob is absent from both loose tiers
contributes nothing to the files map. -/
theorem buildStep_skip {st : Store} {acc : List (String × FileEntry)}
    {e : String × StagedInfo}
    (h : load_object_compressed e.2.hash st = none) :
    buildStep st acc e = acc := by
  have hf := (load_none_split h).2
  unfold buildStep
  rw [h, hf]

theorem buildStep_length_le (st : Store) (acc : List (String × FileEntry))
    (e : String × StagedInfo) :
    (buildStep st acc e).length ≤ acc.length + 1 := by
  unfold buildStep
  cases hl : load_object_compressed e.2.hash st with
  | some content =>
      dsimp only
      by_cases hc : content ≠ []
      · rw [if_pos hc]
        exact insertReplace_length_le _ _ _
      · rw [if_neg hc]
        cases hf : lookupS st.flat e.2.hash with
        | some raw => exact insertReplace_length_le _ _ _
        | none => exact Nat.le_succ _
  | none =>
      dsimp only
      cases hf : lookupS st.flat e.2.hash with
      | some raw => exact insertReplace_length_le _ _ _
      | none => exact Nat.le_succ _

/-- Each step of the commit fold inserts at most the key of a blob it
could actually read; a hash absent from both loose tiers never becomes
a key. -/
theorem buildStep_lookup_none {st : Store} {acc : List (String × FileEntry)}
    {e : String × StagedInfo} {k : String}
    (hk : lookupS acc k = none)
    (hsh : lookupS st.sharded k = none) (hfl : lookupS st.flat k = none) :
    lookupS (buildStep st acc e) k = none := by
  unfold buildStep
  cases hl : load_object_compressed e.2.hash st with
  | some content =>
      dsimp only
      have hne : e.2.hash ≠ k := by
        intro heq
        subst heq
        unfold load_object_compressed at hl
        rw [hsh, hfl] at hl
        cases hl
      by_cases hc : content ≠ []
      · rw [if_pos hc, lookupS_insertReplace_ne _ hne]
        exact hk
      · rw [if_neg hc]
        cases hf : lookupS st.flat e.2.hash with
        | some raw => rw [lookupS_insertReplace_ne _ hne]; exact hk
        | none => exact hk
  | none =>
      dsimp only
      cases hf : lookupS st.flat e.2.hash with
      | some raw =>
          have hne : e.2.hash ≠ k := by
            intro heq
            subst heq
            rw [hfl] at hf
            cases hf
          rw [lookupS_insertReplace_ne _ hne]
          exact hk
      | none => exact hk

/-- A commit call with a non-empty staging area and a readable commits
file succeeds, producing exactly the commit object and successor state
described by commitResult and commitRepoAfter. -/
theorem commit_done (r : Repo) (message now : String) (old : List CommitObj)
    (hne : r.staging ≠ []) (hread : readCommits r.commitsFile = some old) :
    commit r message now =
      .done (commitRepoAfter r message now old) (commitResult r message now) := by
  unfold commit commitRepoAfter commitResult
  rw [if_neg hne, hread]

theorem buildFold_length_le (st : Store) :
    ∀ (l : List (String × StagedInfo)) (acc : List (String × FileEntry)),
      (List.foldl (buildStep st) acc l).length ≤ acc.length + l.length
  | [], acc => by simp
  | e :: rest, acc => by
      rw [List.foldl_cons]
      calc (List.foldl (buildStep st) (buildStep st acc e) rest).length
          ≤ (buildStep st acc e).length + rest.length :=
            buildFold_length_le st rest (buildStep st acc e)
        _ ≤ (acc.length + 1) + rest.length :=
            Nat.add_le_add_right (buildStep_length_le st acc e) _
        _ = acc.length + (e :: rest).length := by
            simp [List.length_cons]
            omega

/-- When some staged entry points at a blob absent from both loose
tiers, the files map built by commit is strictly smaller than the
staging area. -/
theorem buildFold_length_lt (st : Store) {b : String} {e : StagedInfo}
    (hmiss : load_object_compressed e.hash st = none) :
    ∀ (l : List (String × StagedInfo)) (acc : List (String × FileEntry)),
      (b, e) ∈ l →
      (List.foldl (buildStep st) acc l).length < acc.length + l.length
  | [], acc, hmem => by simp at hmem
  | x :: rest, acc, hmem => by
      rw [List.foldl_cons]
      rcases List.mem_cons.mp hmem with heq | hmem'
      · have hx : buildStep st acc x = acc := by
          have : x.2 = e := by rw [← heq]
          exact buildStep_skip (by rw [this]; exact hmiss)
        rw [hx]
        calc (List.foldl (buildStep st) acc rest).length
            ≤ acc.length + rest.length := buildFold_length_le st rest acc
          _ < acc.length + (x :: rest).length := by simp [List.length_cons]
      · calc (List.foldl (buildStep st) (buildStep st acc x) rest).length
            < (buildStep st acc x).length + rest.length :=
              buildFold_length_lt st hmiss rest (buildStep st acc x) hmem'
          _ ≤ (acc.length + 1) + rest.length :=
              Nat.add_le_add_right (buildStep_length_le st acc x) _
          _ = acc.length + (x :: rest).length := by
              simp [List.length_cons]
              omega

/-- A hash absent from both loose tiers never appears as a key of the
files map built by commit. -/
theorem buildFold_lookup_none (st : Store) {k : String}
    (hsh : lookupS st.sharded k = none) (hfl : lookupS st.flat k = none) :
    ∀ (l : List (String × StagedInfo)) (acc : List (String × FileEntry)),
      lookupS acc k = none →
      lookupS (List.foldl (buildStep st) acc l) k = none
  | [], acc, hacc => hacc
  | x :: rest, acc, hacc => by
      rw [List.foldl_cons]
      exact buildFold_lookup_none st hsh hfl rest _
        (buildStep_lookup_none hacc hsh hfl)

/-- When every staged entry loads non-empty content and the staged
hashes are pairwise distinct, each step of the commit fold adds exactly
one new key. -/
theorem buildFold_length_eq (st : Store) :
    ∀ (l : List (String × StagedInfo)) (acc : List (String × FileEntry)),
      (∀ x ∈ l, (load_object_compressed x.2.hash st).getD [] ≠ []) →
      (l.map (fun x => x.2.hash)).Nodup →
      (∀ x ∈ l, lookupS acc x.2.hash = none) →
      (List.foldl (buildStep st) acc l).length = acc.length + l.length
  | [], acc, _, _, _ => by simp
  | x :: rest, acc, hpres, hnd, hdisj => by
      rw [List.foldl_cons]
      obtain ⟨content, hload, hcne⟩ :
          ∃ c, load_object_compressed x.2.hash st = some c ∧ c ≠ [] := by
        have := hpres x (List.mem_cons_self _ _)
        cases hl : load_object_compressed x.2.hash st with
        | none => rw [hl] at this; simp at this
        | some c =>
            rw [hl] at this
            exact ⟨c, rfl, by simpa using this⟩
      have hstep : buildStep st acc x =
          insertReplace x.2.hash
            { path := x.2.path, content := b64encode content } acc := by
        unfold buildStep
        rw [hload]
        dsimp only
        rw [if_pos hcne]
      rw [List.map_cons, List.nodup_cons] at hnd
      have hlen : (buildStep st acc x).length = acc.length + 1 := by
        rw [hstep]
        exact insertReplace_length_of_none _ (hdisj x (List.mem_cons_self _ _))
      have hdisj' : ∀ y ∈ rest, lookupS (buildStep st acc x) y.2.hash = none := by
        intro y hy
        rw [hstep]
        have hyne : x.2.hash ≠ y.2.hash := by
          intro heq
          exact hnd.1 (heq ▸ List.mem_map_of_mem (fun z => z.2.hash) hy)
        rw [lookupS_insertReplace_ne _ hyne]
        exact hdisj y (List.mem_cons_of_mem _ hy)
      rw [buildFold_length_eq st rest (buildStep st acc x)
        (fun y hy => hpres y (List.mem_cons_of_mem _ hy)) hnd.2 hdisj', hlen]
      simp [List.length_cons]
      omega

theorem fastCond_of_none {work : List (String × WorkFile)} {q : String}
    (info : IndexEntry) (h : lookupS work q = none) :
    fastCond work q info = true := by
  unfold fastCond
  rw [h]

theorem fastCond_of_some {work : List (String × WorkFile)} {q : String}
    {wf : WorkFile} (info : IndexEntry) (h : lookupS work q = some wf) :
    fastCond work q info =
      if wf.content.length ≠ info.size ∨ wf.mtime ≠ info.mtime then
        decide (get_file_hash wf.content ≠ info.hash)
      else false := by
  unfold fastCond
  rw [h]

/-- C1: with twenty loose objects stored and then relocated by
pack_objects, the hash of the first object is listed in a pack manifest,
yet load_object_compressed returns none for it, while before packing the
same call returned the original bytes.  The read path never consults
pack manifests, so get(put(C)) fails once the object is packed,
contradicting the claim. -/
theorem C1_packed_object_unreachable :
    load_object_compressed (get_file_hash [0]) stTwenty = some [0] ∧
    (∃ m ∈ (pack_objects "t" stTwenty).idxFiles,
      get_file_hash [0] ∈ m.2.objects) ∧
    load_object_compressed (get_file_hash [0]) (pack_objects "t" stTwenty) = none := by
  decide

/-- C2: with local commits c1 and c2, oldest first, and a remote that
already holds c1, push issues exactly one write request, re-sending c1,
which the remote rejects as a duplicate, and the loop aborts before c2
is ever sent, contradicting the claim that exactly the missing commits
are sent; when the remote holds every local commit, push reports up to
date with zero write requests. -/
theorem C2_push_resends_held_commit :
    push repoPush ["c1"] = .sent ["c1"] false ∧
    push repoPush ["c1", "c2"] = .upToDate ∧
    push repoPush [] = .sent ["c1", "c2"] true := by
  decide

/-- C3 counterexample: a store holding exactly one loose object.  The
claim says the manual gc command packs whenever at least one loose
object exists; in fact gc calls pack_objects, which no-ops below the
threshold that only automatic packing is supposed to enforce, so the
object stays loose and no pack file is created. -/
theorem C3_gc_single_object_not_packed :
    loose_count stOne = 1 ∧
    gcStore "t" stOne = stOne ∧
    stOne.packFiles = [] ∧ stOne.idxFiles = [] := by
  decide

/-- C3 amended: packing is gated on the twenty-object threshold for
BOTH entry points: below the threshold, gc and pack_objects leave the
store unchanged, whether invoked manually or automatically. -/
theorem C3_gc_respects_threshold (now : String) (st : Store)
    (h : loose_count st < pack_threshold) :
    gcStore now st = st ∧ pack_objects now st = st := by
  have h' : (loose_list st).length < pack_threshold := h
  have hp : pack_objects now st = st := by
    unfold pack_objects
    rw [if_pos h']
  refine ⟨?_, hp⟩
  unfold gcStore
  by_cases hz : loose_count st = 0
  · rw [if_pos hz]
  · rw [if_neg hz]
    exact hp

/-- C3 witness: the threshold theorem applied to the single-object
store. -/
theorem C3_gc_respects_threshold_witness :
    gcStore "w" stOne = stOne ∧ pack_objects "w" stOne = stOne :=
  C3_gc_respects_threshold "w" stOne (by decide)

/-- C5: adding two files of the same basename from different
directories leaves a SINGLE staging record, named after the shared
basename and holding only the second path: the first add has been
overwritten, contradicting keying by full working path. -/
theorem C5_staging_keyed_by_basename :
    (addFile (addFile repoTwoDirs "d1/a.txt") "d2/a.txt").staging =
      [("a.txt", { path := "d2/a.txt", hash := get_file_hash [2] })] := by
  rfl

/-- C7: in the packing sequence over twenty loose objects, the state
reached after the first loop iteration is part of the trace: the first
object has already been unlinked from the loose tier while no pack
payload and no manifest exist yet, so the blob is momentarily stored
nowhere, contradicting delete-only-after-pack-write ordering. -/
theorem C7_loose_deleted_before_pack_written :
    packMidState stTwenty 1 ∈ pack_trace "t" stTwenty ∧
    load_object_compressed (get_file_hash [0]) (packMidState stTwenty 1) = none ∧
    (packMidState stTwenty 1).packFiles = [] ∧
    (packMidState stTwenty 1).idxFiles = [] := by
  decide

/-- C10: add skips every path containing the metadata substring: when
the named file exists in the working tree but its path contains ".fox"
anywhere, add returns with the repository completely unchanged, staging
nothing and reporting no error. -/
theorem C10_add_skips_dotfox_paths (r : Repo) (fp : String)
    (h : containsDotFox fp = true) :
    addFile r fp = r := by
  unfold addFile
  cases hl : lookupS r.work fp with
  | none => rfl
  | some wf =>
      dsimp only
      rw [if_pos h]

/-- C10 witness: the ordinary working file notes.fox.txt is silently
skipped by add despite being named explicitly. -/
theorem C10_add_skips_dotfox_paths_witness :
    addFile repoFox "notes.fox.txt" = repoFox :=
  C10_add_skips_dotfox_paths repoFox "notes.fox.txt" (by decide)

/-- C9: when a staged entry points at a blob absent from both the
sharded and the legacy flat tier, commit does not fail: it skips the
entry (after a warning), the resulting files map is strictly smaller
than the staging area and has no entry for the missing hash, and the
commit is still appended, HEAD updated and staging cleared. -/
theorem C9_commit_skips_missing_blob (r : Repo) (message now : String)
    (b : String) (e : StagedInfo) (old : List CommitObj)
    (hmem : (b, e) ∈ r.staging)
    (hmiss : load_object_compressed e.hash r.store = none)
    (hread : readCommits r.commitsFile = some old) :
    ∃ r' c, commit r message now = .done r' c ∧
      c.files.length < r.staging.length ∧
      lookupS c.files e.hash = none ∧
      readCommits r'.commitsFile = some (old ++ [c]) ∧
      r'.head = some c.id ∧
      r'.staging = [] := by
  have hne : r.staging ≠ [] := List.ne_nil_of_mem hmem
  have hsplit := load_none_split hmiss
  refine ⟨commitRepoAfter r message now old, commitResult r message now,
    commit_done r message now old hne hread, ?_, ?_, ?_, ?_, ?_⟩
  · show (buildFiles r.store r.staging).length < r.staging.length
    simpa using buildFold_length_lt r.store hmiss r.staging [] hmem
  · show lookupS (buildFiles r.store r.staging) e.hash = none
    exact buildFold_lookup_none r.store hsplit.1 hsplit.2 r.staging [] rfl
  · rfl
  · rfl
  · rfl

/-- C9 witness: a repository with one staged record whose blob exists
nowhere in the store. -/
theorem C9_commit_skips_missing_blob_witness :
    ∃ r' c, commit repoMiss "m" "t" = .done r' c ∧
      c.files.length < repoMiss.staging.length ∧
      lookupS c.files (StagedInfo.mk "a.txt" "hh9.").hash = none ∧
      readCommits r'.commitsFile = some ([] ++ [c]) ∧
      r'.head = some c.id ∧
      r'.staging = [] :=
  C9_commit_skips_missing_blob repoMiss "m" "t" "a.txt" ⟨"a.txt", "hh9."⟩ []
    (by decide) (by decide) rfl

/-- C6 counterexample: two staged entries whose files have identical
content.  The files map of the produced commit is keyed by content
hash, so it holds ONE entry where the claim requires two. -/
theorem C6_duplicate_content_counterexample :
    repoDup.staging.length = 2 ∧
    commitFilesCount (commit repoDup "m" "t") = some 1 := by
  exact ⟨rfl, rfl⟩

/-- C6 amended: commit on an empty staging area fails and changes
nothing; commit on N staged entries whose blob hashes are pairwise
distinct and whose blobs all load with non-empty content appends exactly
one commit with exactly N file entries, parent equal to the prior HEAD,
and moves HEAD to the new id; with duplicate content among the staged
files the files map instead has one entry per distinct hash. -/
theorem C6_commit_shape (message now : String) :
    (∀ r : Repo, r.staging = [] → commit r message now = .notStaged) ∧
    (∀ (r : Repo) (old : List CommitObj),
      r.staging ≠ [] →
      (r.staging.map (fun x => x.2.hash)).Nodup →
      (∀ x ∈ r.staging, (load_object_compressed x.2.hash r.store).getD [] ≠ []) →
      readCommits r.commitsFile = some old →
      ∃ r' c, commit r message now = .done r' c ∧
        c.files.length = r.staging.length ∧
        c.parent = r.head ∧
        readCommits r'.commitsFile = some (old ++ [c]) ∧
        r'.head = some c.id ∧
        r'.staging = []) := by
  constructor
  · intro r hr
    unfold commit
    rw [if_pos hr]
  · intro r old hne hnd hpres hread
    refine ⟨commitRepoAfter r message now old, commitResult r message now,
      commit_done r message now old hne hread, ?_, rfl, rfl, rfl, rfl⟩
    show (buildFiles r.store r.staging).length = r.staging.length
    simpa using
      buildFold_length_eq r.store r.staging [] hpres hnd (fun x hx => rfl)

/-- C6 witness: the empty-staging half at a fresh repository and the
N-entry half at two staged files with distinct content. -/
theorem C6_commit_shape_witness :
    commit repoBase "m" "t" = .notStaged ∧
    (∃ r' c, commit repoDistinct "m" "t" = .done r' c ∧
      c.files.length = repoDistinct.staging.length ∧
      c.parent = repoDistinct.head ∧
      readCommits r'.commitsFile = some ([] ++ [c]) ∧
      r'.head = some c.id ∧
      r'.staging = []) :=
  ⟨(C6_commit_shape "m" "t").1 repoBase rfl,
   (C6_commit_shape "m" "t").2 repoDistinct []
     (by decide) (by decide) (by decide) rfl⟩

/-- C8 counterexample: with an unparseable commits file and a staged
entry, commit raises instead of treating the file as empty, log raises,
and push raises: none of the three completes its normal behaviour. -/
theorem C8_corrupt_commits_counterexample :
    commit repoCorrupt "m" "t" = .raised ∧
    logCmd repoCorrupt = none ∧
    push repoCorrupt [] = .raised := by
  exact ⟨rfl, rfl, rfl⟩

/-- C8 amended: the lenient-recovery policy covers the index file, the
delta cache and the guarded commits-file readers used for index
bootstrap, which all treat an unparseable file as empty; but commit,
log and push read the commits file without recovery and raise on
invalid JSON instead of completing. -/
theorem C8_lenient_recovery_scope :
    load_index .corrupt = [] ∧
    load_delta_cache .corrupt = [] ∧
    (∀ (work : List (String × WorkFile)) (idx : List (String × IndexEntry)),
      init_index_from_last_commit .corrupt work idx = idx) ∧
    (∀ (r : Repo) (message now : String),
      r.commitsFile = .corrupt → r.staging ≠ [] →
      commit r message now = .raised) ∧
    (∀ r : Repo, r.commitsFile = .corrupt → logCmd r = none) ∧
    (∀ (r : Repo) (remote : List String),
      r.commitsFile = .corrupt → push r remote = .raised) := by
  refine ⟨rfl, rfl, fun work idx => rfl, ?_, ?_, ?_⟩
  · intro r message now hcf hne
    unfold commit
    rw [if_neg hne, hcf]
    rfl
  · intro r hcf
    unfold logCmd
    rw [hcf]
  · intro r remote hcf
    unfold push
    rw [hcf]
    rfl

/-- C8 witness: the raising half of the amended statement applied to
the concrete corrupt repository. -/
theorem C8_lenient_recovery_scope_witness :
    commit repoCorrupt "w" "t" = .raised :=
  C8_lenient_recovery_scope.2.2.2.1 repoCorrupt "w" "t" rfl (by decide)

/-- C4 counterexample: a tracked file whose content changed while its
stat size and mtime still match the index entry.  The fast detector
trusts the stat match and reports nothing; the comprehensive detector
rehashes and reports the path. -/
theorem C4_stat_preserving_change_counterexample :
    get_modified_files_fast idxMismatch workMismatch = [] ∧
    get_modified_files_comprehensive idxMismatch workMismatch = ["a"] := by
  exact ⟨rfl, rfl⟩

/-- C4 amended: over a fixed snapshot with well-formed index and
working tree, the fast and the comprehensive detector report the same
changed-path set PROVIDED that every tracked on-disk file whose stat
size and mtime still match its index entry also matches it in content
hash, and that no tracked on-disk path is excluded by the ignore rules
of the working-tree scan.  Without the first proviso the fast detector
misses stat-preserving content changes; without the second the
comprehensive detector misses modified tracked files inside ignored
directories. -/
theorem C4_detectors_agree (idx : List (String × IndexEntry))
    (work : List (String × WorkFile)) (p : String)
    (hidx : (idx.map Prod.fst).Nodup)
    (hwork : (work.map Prod.fst).Nodup)
    (hstat : ∀ q info wf, lookupS idx q = some info → lookupS work q = some wf →
      wf.content.length = info.size → wf.mtime = info.mtime →
      get_file_hash wf.content = info.hash)
    (hvis : ∀ q info, lookupS idx q = some info → (lookupS work q).isSome →
      ignoredPath q = false) :
    p ∈ get_modified_files_fast idx work ↔
      p ∈ get_modified_files_comprehensive idx work := by
  by_cases hempty : idx = []
  · simp [get_modified_files_fast, get_modified_files_comprehensive, hempty]
  · rw [get_modified_files_fast, get_modified_files_comprehensive,
      if_neg hempty, if_neg hempty]
    constructor
    · intro hp
      rcases List.mem_filterMap.mp hp with ⟨pe, hpe, heq⟩
      obtain ⟨q, info⟩ := pe
      dsimp only at heq
      by_cases hcond : fastCond work q info
      case neg => rw [if_neg hcond] at heq; cases heq
      rw [if_pos hcond] at heq
      obtain rfl : q = p := by injection heq
      have hlook : lookupS idx q = some info := mem_lookupS hidx hpe
      cases hw : lookupS work q with
      | none =>
          refine List.mem_append.mpr (Or.inr ?_)
          refine List.mem_filterMap.mpr ⟨(q, info), hpe, ?_⟩
          dsimp only
          rw [hw]
          rfl
      | some wf =>
          rw [fastCond_of_some info hw] at hcond
          by_cases hstatm : wf.content.length ≠ info.size ∨ wf.mtime ≠ info.mtime
          case neg => rw [if_neg hstatm] at hcond; cases hcond
          rw [if_pos hstatm] at hcond
          have hhne : get_file_hash wf.content ≠ info.hash := by
            simpa using hcond
          have hig : ignoredPath q = false :=
            hvis q info hlook (by rw [hw]; rfl)
          refine List.mem_append.mpr (Or.inl ?_)
          refine List.mem_filterMap.mpr ⟨(q, wf), ?_, ?_⟩
          · exact List.mem_filter.mpr ⟨lookupS_mem hw, by simp [hig]⟩
          · dsimp only
            rw [hlook]
            dsimp only
            rw [if_pos hhne]
    · intro hp
      rcases List.mem_append.mp hp with h1 | h2
      · rcases List.mem_filterMap.mp h1 with ⟨pw, hpwf, heq⟩
        obtain ⟨q, wf⟩ := pw
        have hpw := List.mem_filter.mp hpwf
        dsimp only at heq
        cases hii : lookupS idx q with
        | none => rw [hii] at heq; cases heq
        | some info =>
            rw [hii] at heq
            dsimp only at heq
            by_cases hhne : get_file_hash wf.content ≠ info.hash
            case neg => rw [if_neg hhne] at heq; cases heq
            rw [if_pos hhne] at heq
            obtain rfl : q = p := by injection heq
            have hwl : lookupS work q = some wf := mem_lookupS hwork hpw.1
            refine List.mem_filterMap.mpr ⟨(q, info), lookupS_mem hii, ?_⟩
            dsimp only
            have hstatm : wf.content.length ≠ info.size ∨ wf.mtime ≠ info.mtime := by
              by_contra hcon
              push_neg at hcon
              exact hhne (hstat q info wf hii hwl hcon.1 hcon.2)
            have hcond : fastCond work q info = true := by
              rw [fastCond_of_some info hwl, if_pos hstatm]
              simpa using hhne
            rw [if_pos hcond]
      · rcases List.mem_filterMap.mp h2 with ⟨pe, hpe, heq⟩
        obtain ⟨q, info⟩ := pe
        dsimp only at heq
        cases hw : lookupS work q with
        | some wf => rw [hw] at heq; cases heq
        | none =>
            rw [hw] at heq
            obtain rfl : q = p := by injection heq
            refine List.mem_filterMap.mpr ⟨(q, info), hpe, ?_⟩
            dsimp only
            rw [if_pos (fastCond_of_none info hw)]

/-- C4 witness: the agreement theorem applied to an index tracking one
path that is absent from the working tree: both detectors report it. -/
theorem C4_detectors_agree_witness :
    "a" ∈ get_modified_files_fast idxDeleted [] ↔
      "a" ∈ get_modified_files_comprehensive idxDeleted [] :=
  C4_detectors_agree idxDeleted [] "a" (by decide) (by decide)
    (fun q info wf h1 h2 => by simp [lookupS] at h2)
    (fun q info h1 h2 => by simp [lookupS] at h2)

end FoxNest
